import Mathlib

/-!
Verification of the Table Nova tabular-to-RDF engine.

This file shallowly embeds the JavaScript core of the repository
(schema derivation in `app/rdf/schema.js`, dataset assembly in
`app/rdf/buildDataset.js`, run storage in `app/storage/indexedDb.js`,
and the run orchestration in `main.js`) as executable Lean definitions,
and proves or refutes the specification claims about them.

Modelling conventions:
- JavaScript strings are Lean `String`s; character-level regex pipelines
  are implemented as explicit `List Char` transformations.
- JS `x || y` on strings (empty string is falsy) is `jsOr`.
- `String.prototype.trim()` is `jsTrim` (drop whitespace at both ends);
  we use ASCII whitespace, which covers every input in the claims.
- Host-provided partial functions that the code consumes — JS
  `Number(...)` + `String(...)` rendering and `new Date(...)` +
  `toISOString()` — are fields of a `Host` parameter: they return the
  rendered lexical form on success and `none` on NaN/invalid input.
  Rendered forms are never empty strings (JS `String` of a finite
  number and `Date.prototype.toISOString` never yield `""`).
- `crypto.randomUUID()` is a per-row-index supplied token `uuid : Nat → String`.
-/

/-- JS `a || b` for strings: the empty string is falsy. -/
def jsOr (a b : String) : String := if a = "" then b else a

/-- ASCII whitespace, the fragment of the JS `\s` class exercised here. -/
def isWs (c : Char) : Bool := c = ' ' || c = '\t' || c = '\n' || c = '\r'

/-- Models `String.prototype.trim()`: strip whitespace at both ends. -/
def jsTrim (s : String) : String :=
  ⟨((s.data.dropWhile isWs).reverse.dropWhile isWs).reverse⟩

/-- Models `String.prototype.toLowerCase()` (ASCII fragment). -/
def lowerStr (s : String) : String := ⟨s.data.map Char.toLower⟩

/-- Models `String.prototype.toUpperCase()` (ASCII fragment). -/
def upperStr (s : String) : String := ⟨s.data.map Char.toUpper⟩

/-- Models `String.prototype.endsWith(suffix)`. -/
def endsWithJs (s sfx : String) : Bool :=
  s.data.reverse.take sfx.data.length = sfx.data.reverse

/-- Little-endian base-10 digits of `n`; the fuel argument (any value `≥ n`
suffices) bounds the division loop. -/
def natDigitsGo : Nat → Nat → List Nat
  | _, 0 => []
  | 0, _ => []
  | fuel+1, n => n % 10 :: natDigitsGo fuel (n / 10)

/-- Decimal rendering of a natural number; models JS number-to-string
conversion (template literals, `String(n)`) for nonnegative integers. -/
def natLex (n : Nat) : String :=
  if n = 0 then "0" else ⟨(natDigitsGo n n).reverse.map Nat.digitChar⟩

/-- Models JS `String(n)` for an integer (negative values get a minus sign;
`-0` renders as `"0"`, which the `Int` model gives for free). -/
def intLex (n : Int) : String :=
  if n < 0 then "-" ++ natLex n.natAbs else natLex n.toNat

/-- Collapse maximal runs of characters satisfying `p` into a single `rep`;
`inRun` remembers whether the previous character was part of a run.  This
implements a global regex replace of `p`-runs by the one-character string
`rep`, as in `.replace(/X+/g, rep)`. -/
def collapseGo (p : Char → Bool) (rep : Char) (inRun : Bool) : List Char → List Char
  | [] => []
  | c :: rest =>
    if p c then (if inRun then [] else [rep]) ++ collapseGo p rep true rest
    else c :: collapseGo p rep false rest

/-- `.replace(/X+/g, "r")` where `X` is the class decided by `p`. -/
def collapseRuns (p : Char → Bool) (rep : Char) (l : List Char) : List Char :=
  collapseGo p rep false l

/-- Character class `[a-z0-9_-]` (the characters `slugify` keeps). -/
def slugKeep (c : Char) : Bool :=
  ('a' ≤ c && c ≤ 'z') || ('0' ≤ c && c ≤ '9') || c = '_' || c = '-'

/-- `schema.js` `slugify`: trim, lowercase, dots and whitespace and all other
non-`[a-z0-9_-]` characters become hyphen separators, hyphen runs collapse,
leading/trailing hyphens are stripped, and an empty result defaults to
`"file"`. -/
def slugify (s : String) : String :=
  let l0 := (jsTrim s).data.map Char.toLower
  let l1 := l0.map (fun c => if c = '.' then '-' else c)
  let l2 := collapseRuns isWs '-' l1
  let l3 := collapseRuns (fun c => !slugKeep c) '-' l2
  let l4 := collapseRuns (fun c => c = '-') '-' l3
  let l5 := ((l4.dropWhile (fun c => c = '-')).reverse.dropWhile (fun c => c = '-')).reverse
  jsOr ⟨l5⟩ "file"

/-- `main.js`/`schema.js` `filename.replace(/\.[^.]+$/, '')`: drop a final
dot-plus-nonempty-dotless-suffix extension, if present. -/
def stripExtension (s : String) : String :=
  let rev := s.data.reverse
  let ext := rev.takeWhile (fun c => c ≠ '.')
  if ext.length = 0 ∨ ext.length = s.data.length then s
  else ⟨(rev.drop (ext.length + 1)).reverse⟩

/-- `schema.js` `ensureTrailingSlash`. -/
def ensureTrailingSlash (iri : String) : String :=
  if endsWithJs iri "/" then iri else iri ++ "/"

/-- The UTC clock reading consumed by `buildRunGraphIri`: the `getUTC*`
fields of a JS `Date` (`month` is zero-based, as `getUTCMonth` returns). -/
structure UtcNow where
  year : Nat
  month : Nat
  day : Nat
  hour : Nat := 0
  minute : Nat := 0
  second : Nat := 0
  ms : Nat := 0
deriving DecidableEq, Repr

/-- Four-digit zero-padded decimal rendering (the year of `toISOString`). -/
def pad4 (n : Nat) : List Char :=
  [Nat.digitChar (n / 1000 % 10), Nat.digitChar (n / 100 % 10),
   Nat.digitChar (n / 10 % 10), Nat.digitChar (n % 10)]

/-- Two-digit zero-padded decimal rendering (month/day of `toISOString`). -/
def pad2 (n : Nat) : List Char :=
  [Nat.digitChar (n / 10 % 10), Nat.digitChar (n % 10)]

/-- `new Date(Date.UTC(y, m, d, 0, 0, 0)).toISOString().slice(0, 10)`:
the `YYYY-MM-DD` stamp of the UTC calendar day (ISO months are the
zero-based `getUTCMonth` value plus one).  Faithful for in-range
components (`100 ≤ year ≤ 9999`, `month < 12`, `1 ≤ day ≤ 31`). -/
def formatUtcDate (now : UtcNow) : String :=
  ⟨pad4 now.year ++ '-' :: (pad2 (now.month + 1) ++ '-' :: pad2 now.day)⟩

/-- `schema.js` `buildRunGraphIri`: base (slash-ensured) + UTC date stamp +
`/` + slug of the extension-stripped filename. -/
def buildRunGraphIri (baseRunIri filename : String) (now : UtcNow) : String :=
  ensureTrailingSlash baseRunIri ++ formatUtcDate now ++ "/" ++ slugify (stripExtension filename)

/-- `schema.js` normalization of one raw key inside `dedupeKeys`:
`String(k || 'Column').trim() || 'Column'`. -/
def normalizeKey (k : String) : String := jsOr (jsTrim (jsOr k "Column")) "Column"

/-- The body of `dedupeKeys`: `seen` carries the occurrence count per base
key accumulated so far (the JS `seen` record). -/
def dedupeGo (seen : String → Nat) : List String → List String
  | [] => []
  | k :: rest =>
    let base := normalizeKey k
    let n := seen base + 1
    let out := if n = 1 then base else base ++ "_" ++ natLex n
    out :: dedupeGo (fun b => if b = base then n else seen b) rest

/-- `schema.js` `dedupeKeys`: suffix repeated keys with `_2`, `_3`, …
in order of repetition, preserving list order. -/
def dedupeKeys (keys : List String) : List String := dedupeGo (fun _ => 0) keys

/-- `schema.js` `toExcelLetters` zero-based spreadsheet lettering.  The JS
do-while (`s = chr(n % 26 + 65) + s; n = floor(n / 26) - 1` until `n < 0`)
is rendered with a fuel argument; `fuel ≥ n` suffices because `n` strictly
decreases each iteration. -/
def toExcelGo : Nat → Nat → List Char
  | 0, n => [Char.ofNat (n % 26 + 65)]
  | fuel+1, n =>
    if n < 26 then [Char.ofNat (n % 26 + 65)]
    else toExcelGo fuel (n / 26 - 1) ++ [Char.ofNat (n % 26 + 65)]

/-- `schema.js` `toExcelLetters` (0 → A, 25 → Z, 26 → AA, …). -/
def toExcelLetters (index : Nat) : String := ⟨toExcelGo index index⟩

/-- `schema.js` `buildColumnKeys`: header labels (normalized and deduped)
when `treatFirstRowAsHeader` and a non-empty header exists; otherwise
`Column` + letters up to the maximum cell count over header and rows. -/
def buildColumnKeys (header : Option (List String)) (rows : List (List String))
    (treatFirstRowAsHeader : Bool) : List String :=
  if treatFirstRowAsHeader &&
      (match header with | some h => decide (0 < h.length) | none => false) then
    dedupeKeys ((header.getD []).map (fun h => jsOr (jsTrim h) "Column"))
  else
    let counts := (match header with | some h => h.length | none => 0) :: rows.map List.length
    let maxc := counts.foldr Nat.max 0
    (List.range maxc).map (fun i => "Column" ++ toExcelLetters i)

/-- The maximum cell count across the header row (if present) and all data
rows — the key count of the no-header branch of `buildColumnKeys`. -/
def maxCellCount (header : Option (List String)) (rows : List (List String)) : Nat :=
  ((match header with | some h => h.length | none => 0) :: rows.map List.length).foldr Nat.max 0

/-- `types.js` `PredicateOptions` (casing kept as the raw string the source
compares against). -/
structure PredicateOptions where
  prefixHas : Bool := true
  casing : String := "camelCase"
deriving DecidableEq, Repr

/-- Character class `[A-Za-z0-9 ]` (kept by `tokenizeWords`). -/
def tokenKeep (c : Char) : Bool :=
  ('A' ≤ c && c ≤ 'Z') || ('a' ≤ c && c ≤ 'z') || ('0' ≤ c && c ≤ '9') || c = ' '

/-- JS `String.prototype.split(' ')` on a list of characters. -/
def splitSpaceGo (acc : List Char) : List Char → List (List Char)
  | [] => [acc.reverse]
  | c :: rest =>
    if c = ' ' then acc.reverse :: splitSpaceGo [] rest
    else splitSpaceGo (c :: acc) rest

/-- `schema.js` `tokenizeWords`: underscores/hyphens to spaces, strip other
non-alphanumerics, collapse whitespace, trim, split on spaces (empty
cleaned string gives no tokens). -/
def tokenizeWords (phrase : String) : List String :=
  let l1 := collapseRuns (fun c => c = '_' || c = '-') ' ' phrase.data
  let l2 := collapseRuns (fun c => !tokenKeep c) ' ' l1
  let l3 := collapseRuns isWs ' ' l2
  let cleaned := jsTrim ⟨l3⟩
  if cleaned = "" then [] else (splitSpaceGo [] cleaned.data).map (fun w => (⟨w⟩ : String))

/-- `schema.js` `capitalize`: first character uppercased, rest lowercased. -/
def capitalize (token : String) : String :=
  match token.data with
  | [] => ""
  | c :: rest => ⟨Char.toUpper c :: rest.map Char.toLower⟩

/-- JS `Array.prototype.join(sep)`. -/
def joinSep (sep : String) : List String → String
  | [] => ""
  | [x] => x
  | x :: xs => x ++ sep ++ joinSep sep xs

/-- `schema.js` `buildPredicateLocalName`: optional `has` prefix, tokenize,
then case-join per the selected casing (camelCase default, with a
`hasValue` fallback when there are no tokens). -/
def buildPredicateLocalName (columnKey : String) (predicateOptions : PredicateOptions) : String :=
  let raw := jsOr (jsTrim columnKey) "Column"
  let phrase := if predicateOptions.prefixHas then "has " ++ raw else raw
  let tokens := tokenizeWords phrase
  if predicateOptions.casing = "snake_case" then joinSep "_" (tokens.map lowerStr)
  else if predicateOptions.casing = "SHOUT_CASE" then joinSep "_" (tokens.map upperStr)
  else if predicateOptions.casing = "PascalCase" then joinSep "" (tokens.map capitalize)
  else
    match tokens with
    | [] => "hasValue"
    | t :: ts => joinSep "" (lowerStr t :: ts.map capitalize)

/-- Insertion into a JS object literal viewed as an association list:
an existing key keeps its position and takes the new value, a new key is
appended (JS string-keyed property order). -/
def jsObjInsert (l : List (String × String)) (k v : String) : List (String × String) :=
  if (l.lookup k).isSome then l.map (fun kv => if kv.1 = k then (k, v) else kv)
  else l ++ [(k, v)]

/-- `schema.js` `buildPredicateIrisForColumns`: columnKey → base + localName,
accumulated into an object. -/
def buildPredicateIrisForColumns (columnKeys : List String)
    (predicateOptions : PredicateOptions) (basePredicateIri : String) :
    List (String × String) :=
  columnKeys.foldl
    (fun out key => jsObjInsert out key (basePredicateIri ++ buildPredicateLocalName key predicateOptions))
    []

/-- `schema.js` `buildRowInstanceIri`: slash-ensured base + fresh token +
`?row=` + the row index (`encodeURIComponent` of a decimal numeral is the
numeral itself, since digits are unreserved). -/
def buildRowInstanceIri (uuid : String) (baseInstanceIri : String) (rowIndex : Nat) : String :=
  ensureTrailingSlash baseInstanceIri ++ uuid ++ "?row=" ++ natLex rowIndex

/-- RDFJS term as produced by `buildLiteralObject` (`DataFactory.namedNode`
or `DataFactory.literal` with an explicit datatype; no language tags are
ever produced by this code path). -/
inductive Obj where
  | namedNode (value : String)
  | literal (value : String) (datatype : String)
deriving DecidableEq, Repr

/-- One RDF quad of the in-memory `N3.Store`. -/
structure Quad where
  s : String
  p : String
  o : Obj
  g : String
deriving DecidableEq, Repr

/-- The `oType` discriminator of a stored `QuadRecord`. -/
inductive OType where
  | iri
  | lit
deriving DecidableEq, Repr

/-- `buildDataset.js` `QuadRecord` (the storable projection of a quad). -/
structure QuadRecord where
  s : String
  p : String
  g : String
  oType : OType
  oValue : String
  datatypeIri : Option String := none
  lang : Option String := none
deriving DecidableEq, Repr

/-- The host-dependent partial primitives `buildLiteralObject` consumes.
`parseNumber s` models `Number(s)` followed by `String(_)` when the result
is finite (`none` on NaN/Infinity); `parseDate s` models `new Date(s)`
followed by `.toISOString()` when the date is valid (`none` otherwise).
Both renderings are nonempty strings in JS, recorded as invariants. -/
structure Host where
  parseNumber : String → Option String
  parseDate : String → Option String
  parseNumber_ne : ∀ s r, parseNumber s = some r → r ≠ ""
  parseDate_ne : ∀ s r, parseDate s = some r → r ≠ ""

/-- `schema.js` `looksLikeAbsoluteIri`: `/^https?:\/\//i`. -/
def looksLikeAbsoluteIri (s : String) : Bool :=
  let l := s.data.map Char.toLower
  l.take 7 = "http://".data || l.take 8 = "https://".data

/-- `schema.js` `toBooleanLexical`. -/
def toBooleanLexical (s : String) : String :=
  if lowerStr (jsTrim s) = "1" || lowerStr (jsTrim s) = "true" ||
      lowerStr (jsTrim s) = "yes" || lowerStr (jsTrim s) = "y" then "true"
  else if lowerStr (jsTrim s) = "0" || lowerStr (jsTrim s) = "false" ||
      lowerStr (jsTrim s) = "no" || lowerStr (jsTrim s) = "n" then "false"
  else if lowerStr (jsTrim s) = "" then "false" else "true"

/-- The integer-prefix parse of JS `parseInt(s, 10)`: optional sign, then a
maximal run of decimal digits; `none` when no digit follows (NaN). -/
def takeDigitsVal (acc : Nat) : List Char → Nat
  | [] => acc
  | c :: rest => if c.isDigit then takeDigitsVal (acc * 10 + (c.toNat - 48)) rest else acc

/-- `parseInt(s, 10)` on an already-trimmed string (`none` models NaN). -/
def parseIntPrefix (s : String) : Option Int :=
  match s.data with
  | [] => none
  | '-' :: rest =>
    match rest with
    | c :: _ => if c.isDigit then some (-(takeDigitsVal 0 rest : Int)) else none
    | [] => none
  | '+' :: rest =>
    match rest with
    | c :: _ => if c.isDigit then some ((takeDigitsVal 0 rest : Int)) else none
    | [] => none
  | c :: _ => if c.isDigit then some ((takeDigitsVal 0 s.data : Int)) else none

/-- `schema.js` `toIntegerLexical`: best-effort `parseInt`, default `"0"`. -/
def toIntegerLexical (s : String) : String :=
  match parseIntPrefix (jsTrim s) with
  | some n => intLex n
  | none => "0"

/-- `schema.js` `toNumberLexical`: `Number(trim)` rendered when finite,
default `"0"`. -/
def toNumberLexical (h : Host) (s : String) : String :=
  (h.parseNumber (jsTrim s)).getD "0"

/-- `schema.js` `toDateTimeLexical`: ISO instant of the parsed date, or the
Unix epoch instant (`new Date(0).toISOString()`) when invalid. -/
def toDateTimeLexical (h : Host) (s : String) : String :=
  (h.parseDate (jsTrim s)).getD "1970-01-01T00:00:00.000Z"

/-- The default datatype IRI `xsd:string`. -/
def xsdString : String := "http://www.w3.org/2001/XMLSchema#string"

/-- `schema.js` `buildLiteralObject`: dispatch on the datatype IRI suffix;
`xsd:anyURI` with an absolute-IRI-looking value yields a `NamedNode`, the
numeric/boolean/date cases coerce the lexical form, anything else passes
the trimmed value through.  (The call sites always supply a non-null
datatype string, so the JS `?? xsd:string` null-default is not modelled.) -/
def buildLiteralObject (h : Host) (value : String) (datatypeIri : String) : Obj :=
  if endsWithJs datatypeIri "#anyURI" && looksLikeAbsoluteIri (jsTrim value) then
    .namedNode (jsTrim value)
  else if endsWithJs datatypeIri "#boolean" then
    .literal (toBooleanLexical (jsTrim value)) datatypeIri
  else if endsWithJs datatypeIri "#integer" then
    .literal (toIntegerLexical (jsTrim value)) datatypeIri
  else if endsWithJs datatypeIri "#decimal" || endsWithJs datatypeIri "#double" ||
      endsWithJs datatypeIri "#float" then
    .literal (toNumberLexical h (jsTrim value)) datatypeIri
  else if endsWithJs datatypeIri "#dateTime" then
    .literal (toDateTimeLexical h (jsTrim value)) datatypeIri
  else .literal (jsTrim value) datatypeIri

/-- `parseTabular.js` `TabularData`: optional header row plus data rows. -/
structure TabularData where
  header : Option (List String)
  rows : List (List String)
deriving DecidableEq, Repr

/-- `types.js` `FileOptions` (the fields the dataset builder consumes). -/
structure FileOptions where
  treatFirstRowAsHeader : Bool
  datatypesByColumnKey : List (String × String) := []
  predicate : PredicateOptions := {}
deriving DecidableEq, Repr

/-- `buildDataset.js`: the effective data rows — `rows`, with the header
re-inserted as an ordinary data row when `treatFirstRowAsHeader` is false. -/
def effectiveDataRows (tabular : TabularData) (treatFirstRowAsHeader : Bool) :
    List (List String) :=
  if treatFirstRowAsHeader then tabular.rows
  else (match tabular.header with | some h => [h] | none => []) ++ tabular.rows

/-- The JS skip guard `cell === undefined || cell === null ||
String(cell).trim() === ''`: the cell is missing (`row[c]` out of range)
or trims to empty. -/
def cellBlank (cell? : Option String) : Bool :=
  match cell? with
  | none => true
  | some cell => jsTrim cell = ""

/-- One iteration of the inner column loop of `buildDatasetFromTabular`:
skip when the predicate IRI is falsy or the cell is blank; otherwise
coerce the literal and emit the (store quad, storable record) pair. -/
def cellEmission (lit : String → String → Obj) (options : FileOptions)
    (subjectIri graphIri pIri key : String) (cell? : Option String) :
    Option (Quad × QuadRecord) :=
  if pIri = "" then none
  else if cellBlank cell? then none
  else
    match lit (cell?.getD "") (jsOr ((options.datatypesByColumnKey.lookup key).getD "") xsdString) with
    | .namedNode v =>
      some (⟨subjectIri, pIri, .namedNode v, graphIri⟩,
        ⟨subjectIri, pIri, graphIri, .iri, v, none, none⟩)
    | .literal v dt =>
      some (⟨subjectIri, pIri, .literal v dt, graphIri⟩,
        ⟨subjectIri, pIri, graphIri, .lit, v, some dt, none⟩)

/-- The inner `for (c …)` loop over the column keys, with `c` the running
index used to address `row[c]` and the key used to look up the predicate
IRI in the `predicateIris` object. -/
def rowEmissionsGo (lit : String → String → Obj) (options : FileOptions)
    (predicateIris : List (String × String)) (subjectIri graphIri : String)
    (row : List String) : Nat → List String → List (Quad × QuadRecord)
  | _, [] => []
  | c, key :: restKeys =>
    let pIri := (predicateIris.lookup key).getD ""
    (cellEmission lit options subjectIri graphIri pIri key (row.get? c)).toList ++
      rowEmissionsGo lit options predicateIris subjectIri graphIri row (c + 1) restKeys

/-- All emissions of one data row (column keys are `Object.keys` of the
predicate-IRI object, i.e. its association-list keys in order). -/
def rowEmissions (lit : String → String → Obj) (options : FileOptions)
    (predicateIris : List (String × String)) (subjectIri graphIri : String)
    (row : List String) : List (Quad × QuadRecord) :=
  rowEmissionsGo lit options predicateIris subjectIri graphIri row 0
    (predicateIris.map Prod.fst)

/-- The outer `for (r …)` loop over the data rows: each row mints one fresh
subject IRI from its index and contributes its emissions in order. -/
def rowsGo (emitRow : Nat → List String → List (Quad × QuadRecord)) :
    Nat → List (List String) → List (Quad × QuadRecord)
  | _, [] => []
  | r, row :: rest => emitRow r row ++ rowsGo emitRow (r + 1) rest

/-- `N3.Store.addQuad`: the store is a set — adding an already-present quad
is a no-op (insertion order preserved otherwise). -/
def addQuad (st : List Quad) (q : Quad) : List Quad :=
  if q ∈ st then st else st ++ [q]

/-- An `N3.Store` filled by adding the given quads in order. -/
def storeOf (qs : List Quad) : List Quad := qs.foldl addQuad []

/-- `buildDataset.js` `buildDatasetFromTabular`: returns the in-memory
dataset (store) and the flat `QuadRecord` list, both in row-major,
column-major emission order.  `mintF` is the injected `buildRowInstanceIri`
and `lit` the injected `buildLiteralObject`. -/
def buildDatasetFromTabular (lit : String → String → Obj)
    (mintF : String → Nat → String) (baseInstanceIri : String)
    (tabular : TabularData) (options : FileOptions)
    (predicateIris : List (String × String)) (graphIri : String) :
    List Quad × List QuadRecord :=
  (storeOf ((rowsGo
      (fun r row => rowEmissions lit options predicateIris (mintF baseInstanceIri r) graphIri row)
      0 (effectiveDataRows tabular options.treatFirstRowAsHeader)).map Prod.fst),
   (rowsGo
      (fun r row => rowEmissions lit options predicateIris (mintF baseInstanceIri r) graphIri row)
      0 (effectiveDataRows tabular options.treatFirstRowAsHeader)).map Prod.snd)

/-- `buildDataset.js` `datasetFromQuads`: rebuild one quad from a stored
record (`iri` records become named nodes; `literal` records become typed
literals, with the `||`-defaulted datatype). -/
def recToQuad (rec : QuadRecord) : Quad :=
  { s := rec.s, p := rec.p, g := rec.g,
    o := match rec.oType with
      | .iri => .namedNode rec.oValue
      | .lit => .literal rec.oValue (jsOr (rec.datatypeIri.getD "") xsdString) }

/-- `buildDataset.js` `datasetFromQuads`: a fresh store filled from the
stored records in order. -/
def datasetFromQuads (records : List QuadRecord) : List Quad :=
  storeOf (records.map recToQuad)

/-- `indexedDb.js` `StoredRun`. -/
structure StoredRun where
  graphIri : String
  filename : String
  createdAtIso : String
  quads : List QuadRecord
deriving DecidableEq, Repr

/-- `indexedDb.js` `putRun` via `store.put` on the `graphIri` key path:
replaces an existing record with the same key, else inserts. -/
def putRun (db : List StoredRun) (run : StoredRun) : List StoredRun :=
  if db.any (fun x => x.graphIri = run.graphIri) then
    db.map (fun x => if x.graphIri = run.graphIri then run else x)
  else db ++ [run]

/-- `indexedDb.js` `getRunDataset` via `store.get`: the record stored under
the graph IRI, if any. -/
def getRunDataset (db : List StoredRun) (graphIri : String) : Option StoredRun :=
  db.find? (fun x => x.graphIri = graphIri)

/-- The six serialization strings `datasetToSerializations` produces. -/
structure Serializations where
  turtle : String := ""
  trig : String := ""
  ntriples : String := ""
  nquads : String := ""
  jsonldTriples : String := ""
  jsonldGraph : String := ""
deriving DecidableEq, Repr

/-- The observable outcome of a `handleRun` invocation: the success toast,
or the failure toast `safeAsync` produces from a thrown error. -/
inductive RunOutcome where
  | success (ser : Serializations)
  | failure (msg : String)
deriving DecidableEq, Repr

/-- `defaults.js` `TABLENOVA_DEFAULTS.baseInstanceIri`. -/
def defaultBaseInstanceIri : String := "https://example.org/TableNova/instance#"

/-- `defaults.js` `TABLENOVA_DEFAULTS.basePredicateIri`. -/
def defaultBasePredicateIri : String := "https://example.org/TableNova/"

/-- `defaults.js` `TABLENOVA_DEFAULTS.baseRunIri`. -/
def defaultBaseRunIri : String := "https://example.org/TableNova/run#"

/-- `main.js` `handleRun`, from the point where the tabular grid has been
parsed: derive column keys and predicate IRIs, mint the run graph IRI,
assemble the dataset, serialize, and only then persist the run.  The
surrounding `safeAsync` turns a serialization error into a reported
failure and skips every later step — in particular the `putRun` store
write.  `ser` is the injected `datasetToSerializations` codec, which
either returns the six strings or throws. -/
def handleRun (h : Host) (uuid : Nat → String) (now : UtcNow) (nowIso : String)
    (db : List StoredRun) (filename : String) (options : FileOptions)
    (tabular : TabularData) (ser : List Quad → Except String Serializations) :
    List StoredRun × RunOutcome :=
  match ser (buildDatasetFromTabular (buildLiteralObject h)
      (fun base r => buildRowInstanceIri (uuid r) base r) defaultBaseInstanceIri tabular options
      (buildPredicateIrisForColumns
        (buildColumnKeys tabular.header tabular.rows options.treatFirstRowAsHeader)
        options.predicate defaultBasePredicateIri)
      (buildRunGraphIri defaultBaseRunIri filename now)).1 with
  | .error e => (db, .failure e)
  | .ok out =>
    (putRun db ⟨buildRunGraphIri defaultBaseRunIri filename now, filename, nowIso,
      (buildDatasetFromTabular (buildLiteralObject h)
        (fun base r => buildRowInstanceIri (uuid r) base r) defaultBaseInstanceIri tabular options
        (buildPredicateIrisForColumns
          (buildColumnKeys tabular.header tabular.rows options.treatFirstRowAsHeader)
          options.predicate defaultBasePredicateIri)
        (buildRunGraphIri defaultBaseRunIri filename now)).2⟩, .success out)

/-! ### Generic helper lemmas -/

theorem strData_inj {s t : String} (h : s.data = t.data) : s = t := by
  cases s; cases t; exact congrArg String.mk h

theorem str_ne_of_data {s : String} (h : s.data ≠ []) : s ≠ "" := by
  intro he; exact h (by simp [he])

theorem jsOr_of_ne {a b : String} (h : a ≠ "") : jsOr a b = a := by
  simp [jsOr, h]

theorem jsOr_ne_of_ne {a b : String} (h : b ≠ "") : jsOr a b ≠ "" := by
  unfold jsOr; split
  · exact h
  · assumption

theorem digitChar_inj10 {a b : Nat} (ha : a < 10) (hb : b < 10)
    (h : Nat.digitChar a = Nat.digitChar b) : a = b := by
  have key : ∀ x : Fin 10, ∀ y : Fin 10, Nat.digitChar x = Nat.digitChar y → x = y := by decide
  simpa using congrArg Fin.val (key ⟨a, ha⟩ ⟨b, hb⟩ h)

theorem digitChar_isDigit {d : Nat} (hd : d < 10) : (Nat.digitChar d).isDigit = true := by
  have key : ∀ x : Fin 10, (Nat.digitChar x).isDigit = true := by decide
  exact key ⟨d, hd⟩

theorem natDigitsGo_lt10 : ∀ fuel n, ∀ d ∈ natDigitsGo fuel n, d < 10 := by
  intro fuel
  induction fuel with
  | zero =>
    intro n d hd
    cases n <;> simp [natDigitsGo] at hd
  | succ f ih =>
    intro n d hd
    cases n with
    | zero => simp [natDigitsGo] at hd
    | succ m =>
      simp only [natDigitsGo, List.mem_cons] at hd
      rcases hd with h | h
      · subst h; exact Nat.mod_lt _ (by norm_num)
      · exact ih _ _ h

/-- Little-endian digit evaluation, the left inverse of `natDigitsGo`. -/
def digitsVal : List Nat → Nat
  | [] => 0
  | d :: ds => d + 10 * digitsVal ds

theorem natDigitsGo_val : ∀ fuel n, n ≤ fuel → digitsVal (natDigitsGo fuel n) = n := by
  intro fuel
  induction fuel with
  | zero =>
    intro n hn
    interval_cases n
    simp [natDigitsGo, digitsVal]
  | succ f ih =>
    intro n hn
    cases n with
    | zero => simp [natDigitsGo, digitsVal]
    | succ m =>
      have hdiv : (m + 1) / 10 ≤ f := by omega
      simp only [natDigitsGo, digitsVal, ih _ hdiv]
      omega

theorem natDigitsGo_ne_nil {fuel n : Nat} (hn : n ≠ 0) (hf : fuel ≠ 0) :
    natDigitsGo fuel n ≠ [] := by
  cases fuel with
  | zero => exact absurd rfl hf
  | succ f =>
    cases n with
    | zero => exact absurd rfl hn
    | succ m => simp [natDigitsGo]

theorem natLex_ne_empty (n : Nat) : natLex n ≠ "" := by
  unfold natLex
  split
  · decide
  · next hn =>
    apply str_ne_of_data
    simp only [List.map_eq_nil_iff, List.reverse_eq_nil_iff, ne_eq]
    exact natDigitsGo_ne_nil hn hn

theorem natLex_digits (n : Nat) : ∀ c ∈ (natLex n).data, c.isDigit = true := by
  unfold natLex
  split
  · intro c hc
    simp only [String.data] at hc
    simp at hc
    subst hc; decide
  · intro c hc
    simp only [String.data, List.mem_map, List.mem_reverse] at hc
    obtain ⟨d, hd, hdc⟩ := hc
    subst hdc
    exact digitChar_isDigit (natDigitsGo_lt10 _ _ _ hd)

theorem digitsRender_inj : ∀ l₁ l₂ : List Nat, (∀ d ∈ l₁, d < 10) → (∀ d ∈ l₂, d < 10) →
    l₁.map Nat.digitChar = l₂.map Nat.digitChar → l₁ = l₂ := by
  intro l₁
  induction l₁ with
  | nil =>
    intro l₂ _ _ h
    cases l₂ with
    | nil => rfl
    | cons b t => simp at h
  | cons a t ih =>
    intro l₂ h₁ h₂ h
    cases l₂ with
    | nil => simp at h
    | cons b u =>
      simp only [List.map_cons, List.cons.injEq] at h
      have ha := h₁ a (by simp)
      have hb := h₂ b (by simp)
      have : a = b := digitChar_inj10 ha hb h.1
      subst this
      rw [ih u (fun d hd => h₁ d (by simp [hd])) (fun d hd => h₂ d (by simp [hd])) h.2]

theorem natLex_inj {n m : Nat} (h : natLex n = natLex m) : n = m := by
  by_cases hn : n = 0 <;> by_cases hm : m = 0
  · omega
  · exfalso
    unfold natLex at h
    rw [if_pos hn, if_neg hm] at h
    have hd := congrArg String.data h
    simp only [String.data] at hd
    have : [(0 : Nat)].map Nat.digitChar = ((natDigitsGo m m).reverse).map Nat.digitChar := by
      simpa using hd
    have := digitsRender_inj _ _ (by intro d hd'; simp at hd'; omega)
      (fun d hd' => natDigitsGo_lt10 _ _ _ (List.mem_reverse.mp hd')) this
    have h0 : natDigitsGo m m = [0] := by
      have := congrArg List.reverse this
      simpa using this.symm
    have hval := natDigitsGo_val m m (le_refl m)
    rw [h0] at hval
    simp [digitsVal] at hval
    omega
  · exfalso
    unfold natLex at h
    rw [if_neg hn, if_pos hm] at h
    have hd := congrArg String.data h
    simp only [String.data] at hd
    have : ((natDigitsGo n n).reverse).map Nat.digitChar = [(0 : Nat)].map Nat.digitChar := by
      simpa using hd
    have := digitsRender_inj _ _
      (fun d hd' => natDigitsGo_lt10 _ _ _ (List.mem_reverse.mp hd')) (by intro d hd'; simp at hd'; omega) this
    have h0 : natDigitsGo n n = [0] := by
      have := congrArg List.reverse this
      simpa using this
    have hval := natDigitsGo_val n n (le_refl n)
    rw [h0] at hval
    simp [digitsVal] at hval
    omega
  · unfold natLex at h
    rw [if_neg hn, if_neg hm] at h
    have hd := congrArg String.data h
    simp only [String.data] at hd
    have := digitsRender_inj _ _
      (fun d hd' => natDigitsGo_lt10 _ _ _ (List.mem_reverse.mp hd'))
      (fun d hd' => natDigitsGo_lt10 _ _ _ (List.mem_reverse.mp hd'))
      hd
    have heq : natDigitsGo n n = natDigitsGo m m := by
      have := congrArg List.reverse this
      simpa using this
    have h₁ := natDigitsGo_val n n (le_refl n)
    have h₂ := natDigitsGo_val m m (le_refl m)
    rw [heq] at h₁
    omega

theorem takeWhile_all_append {p : Char → Bool} {l : List Char} {x : Char} {t : List Char}
    (hl : ∀ c ∈ l, p c = true) (hx : p x = false) :
    (l ++ x :: t).takeWhile p = l := by
  induction l with
  | nil => simp [List.takeWhile_cons, hx]
  | cons c r ih =>
    have hc := hl c (by simp)
    simp only [List.cons_append, List.takeWhile_cons, hc, if_true]
    rw [ih (fun d hd => hl d (by simp [hd]))]

/-- Splitting at the last occurrence of a separator character: when the parts
after the separator contain no separator, an equality of the concatenations
forces both components to agree. -/
theorem sepSplit {b₁ b₂ d₁ d₂ : List Char} {sep : Char}
    (h₁ : ∀ c ∈ d₁, c ≠ sep) (h₂ : ∀ c ∈ d₂, c ≠ sep)
    (h : b₁ ++ sep :: d₁ = b₂ ++ sep :: d₂) : b₁ = b₂ ∧ d₁ = d₂ := by
  have hrev := congrArg List.reverse h
  simp only [List.reverse_append, List.reverse_cons] at hrev
  have hshape : ∀ (d b : List Char),
      (d.reverse ++ [sep]) ++ b.reverse = d.reverse ++ sep :: b.reverse := by
    intro d b; simp
  rw [hshape d₁ b₁, hshape d₂ b₂] at hrev
  have hp : ∀ (d : List Char), (∀ c ∈ d, c ≠ sep) →
      ∀ c ∈ d.reverse, (fun c => c != sep) c = true := by
    intro d hd c hc
    simp only [bne_iff_ne, ne_eq]
    exact hd c (List.mem_reverse.mp hc)
  have hsep : (fun c => c != sep) sep = false := by simp
  have ht₁ : (d₁.reverse ++ sep :: b₁.reverse).takeWhile (fun c => c != sep) = d₁.reverse :=
    takeWhile_all_append (hp d₁ h₁) hsep
  have ht₂ : (d₂.reverse ++ sep :: b₂.reverse).takeWhile (fun c => c != sep) = d₂.reverse :=
    takeWhile_all_append (hp d₂ h₂) hsep
  have hd : d₁.reverse = d₂.reverse := by
    rw [← ht₁, ← ht₂, hrev]
  have hdeq : d₁ = d₂ := by
    have := congrArg List.reverse hd
    simpa using this
  subst hdeq
  refine ⟨?_, rfl⟩
  exact List.append_cancel_right h

theorem dropWhile_dropWhile (p : Char → Bool) (l : List Char) :
    (l.dropWhile p).dropWhile p = l.dropWhile p := by
  induction l with
  | nil => rfl
  | cons c r ih =>
    by_cases hc : p c = true
    · simp [List.dropWhile_cons, hc, ih]
    · simp only [List.dropWhile_cons]
      rw [if_neg (by simp [hc])]
      simp [List.dropWhile_cons, hc]

theorem head_dropWhile_not {p : Char → Bool} : ∀ {l : List Char} {c : Char},
    (l.dropWhile p).head? = some c → p c = false := by
  intro l
  induction l with
  | nil => intro c h; simp [List.dropWhile_nil] at h
  | cons a r ih =>
    intro c h
    by_cases ha : p a = true
    · rw [List.dropWhile_cons, if_pos ha] at h
      exact ih h
    · rw [List.dropWhile_cons, if_neg ha] at h
      simp only [List.head?_cons, Option.some.injEq] at h
      subst h
      simpa using ha

theorem dropWhile_eq_self_of_head {p : Char → Bool} {l : List Char}
    (h : ∀ c, l.head? = some c → p c = false) : l.dropWhile p = l := by
  cases l with
  | nil => rfl
  | cons a r =>
    rw [List.dropWhile_cons, if_neg (by simp [h a rfl])]

theorem dropWhile_eq_self_of_prefix {p : Char → Bool} {l y : List Char}
    (hl : l.dropWhile p = l) (hy : y <+: l) : y.dropWhile p = y := by
  cases y with
  | nil => rfl
  | cons a r =>
    obtain ⟨t, ht⟩ := hy
    have hpa : p a = false := by
      by_contra hcon
      have hpa : p a = true := by simpa using hcon
      rw [← ht, List.cons_append, List.dropWhile_cons, if_pos hpa] at hl
      have hlen := congrArg List.length hl
      have hle := (List.dropWhile_suffix (l := r ++ t) p).length_le
      simp only [List.length_cons] at hlen
      omega
    rw [List.dropWhile_cons, if_neg (by simp [hpa])]

theorem jsTrim_idem (s : String) : jsTrim (jsTrim s) = jsTrim s := by
  unfold jsTrim
  apply strData_inj
  simp only [String.data]
  generalize s.data = x
  have hyz : ((x.dropWhile isWs).reverse.dropWhile isWs).reverse <+: x.dropWhile isWs := by
    rw [← List.reverse_suffix, List.reverse_reverse]
    exact List.dropWhile_suffix isWs
  have hstep1 := dropWhile_eq_self_of_prefix (dropWhile_dropWhile isWs x) hyz
  rw [hstep1, List.reverse_reverse, dropWhile_dropWhile]

theorem lowerStr_ne_empty {s : String} (h : s ≠ "") : lowerStr s ≠ "" := by
  apply str_ne_of_data
  simp only [lowerStr, String.data, ne_eq, List.map_eq_nil_iff]
  intro hd
  exact h (strData_inj (by simp [hd]))

theorem str_append_empty (s : String) : s ++ "" = s := by
  apply strData_inj
  simp [String.data_append]

/-! ### Claim C6 -/

set_option maxHeartbeats 2000000 in
/-- C6: `buildPredicateLocalName` satisfies the four literal prefix/casing
cases — `"email address"` yields `"hasEmailAddress"` (camelCase with `has`),
`"HasEmailAddress"` (PascalCase), `"has_email_address"` (snake_case), and
`"emailAddress"` (no prefix, camelCase) — and tokenization maps
`"has email_address!!"` to `["has", "email", "address"]`. -/
theorem predicate_localname_literal_cases :
    buildPredicateLocalName "email address" ⟨true, "camelCase"⟩ = "hasEmailAddress" ∧
    buildPredicateLocalName "email address" ⟨true, "PascalCase"⟩ = "HasEmailAddress" ∧
    buildPredicateLocalName "email address" ⟨true, "snake_case"⟩ = "has_email_address" ∧
    buildPredicateLocalName "email address" ⟨false, "camelCase"⟩ = "emailAddress" ∧
    tokenizeWords "has email_address!!" = ["has", "email", "address"] := by
  decide

/-! ### Claim C8 -/

/-- C8: `toExcelLetters` maps 0/25/26/27 to A/Z/AA/AB, and with
`treatFirstRowAsHeader = false` the key list of `buildColumnKeys` has
exactly `maxCellCount` entries whose `i`-th element is `"Column"` followed
by the base-26 lettering of `i`. -/
theorem excel_letters_ordinal_keys :
    (toExcelLetters 0 = "A" ∧ toExcelLetters 25 = "Z" ∧
     toExcelLetters 26 = "AA" ∧ toExcelLetters 27 = "AB") ∧
    ∀ (header : Option (List String)) (rows : List (List String)),
      (buildColumnKeys header rows false).length = maxCellCount header rows ∧
      ∀ i, i < maxCellCount header rows →
        (buildColumnKeys header rows false)[i]? = some ("Column" ++ toExcelLetters i) := by
  refine ⟨by decide, ?_⟩
  intro header rows
  have hb : buildColumnKeys header rows false =
      (List.range (maxCellCount header rows)).map (fun i => "Column" ++ toExcelLetters i) := by
    simp [buildColumnKeys, maxCellCount]
  constructor
  · simp [hb]
  · intro i hi
    rw [hb]
    simp [List.getElem?_map, List.getElem?_range, hi]

/-- Witness for C8 at a concrete ragged grid: the ordinal branch produces
three keys and the third is `ColumnC`. -/
theorem excel_letters_ordinal_keys_witness :
    (buildColumnKeys (some ["a", "b"]) [["x", "y", "z"]] false).length =
      maxCellCount (some ["a", "b"]) [["x", "y", "z"]] ∧
    (buildColumnKeys (some ["a", "b"]) [["x", "y", "z"]] false)[2]? =
      some ("Column" ++ toExcelLetters 2) :=
  ⟨(excel_letters_ordinal_keys.2 (some ["a", "b"]) [["x", "y", "z"]]).1,
   (excel_letters_ordinal_keys.2 (some ["a", "b"]) [["x", "y", "z"]]).2 2 (by decide)⟩

/-! ### Claim C9 -/

/-- C9: a column key whose characters are all stripped by tokenization
(no alphanumeric content, e.g. `"!!!"`) yields the empty local name under
snake_case, SHOUT_CASE and PascalCase with `prefixHas = false`, so
`buildPredicateIrisForColumns` maps that column to the bare base predicate
namespace; only the camelCase branch falls back to `"hasValue"`. -/
theorem empty_localname_cases (key base : String)
    (htok : tokenizeWords (jsOr (jsTrim key) "Column") = []) :
    buildPredicateLocalName key ⟨false, "snake_case"⟩ = "" ∧
    buildPredicateLocalName key ⟨false, "SHOUT_CASE"⟩ = "" ∧
    buildPredicateLocalName key ⟨false, "PascalCase"⟩ = "" ∧
    buildPredicateLocalName key ⟨false, "camelCase"⟩ = "hasValue" ∧
    buildPredicateIrisForColumns [key] ⟨false, "snake_case"⟩ base = [(key, base)] := by
  have hlocal : ∀ c : String, buildPredicateLocalName key ⟨false, c⟩ =
      (if c = "snake_case" then joinSep "_" ([] : List String)
       else if c = "SHOUT_CASE" then joinSep "_" ([] : List String)
       else if c = "PascalCase" then joinSep "" ([] : List String)
       else "hasValue") := by
    intro c
    unfold buildPredicateLocalName
    simp only [show (⟨false, c⟩ : PredicateOptions).prefixHas = false from rfl,
      show (⟨false, c⟩ : PredicateOptions).casing = c from rfl,
      Bool.false_eq_true, if_false, htok, List.map_nil]
  refine ⟨by rw [hlocal]; rfl, by rw [hlocal]; rfl, by rw [hlocal]; rfl, by rw [hlocal]; rfl, ?_⟩
  have hl : buildPredicateLocalName key ⟨false, "snake_case"⟩ = "" := by rw [hlocal]; rfl
  simp only [buildPredicateIrisForColumns, List.foldl_cons, List.foldl_nil, jsObjInsert,
    List.lookup_nil, Option.isSome_none, Bool.false_eq_true, if_false, List.nil_append, hl]
  rw [str_append_empty]

/-- Witness for C9 at the key `"!!!"`. -/
theorem empty_localname_cases_witness :
    buildPredicateLocalName "!!!" ⟨false, "snake_case"⟩ = "" ∧
    buildPredicateLocalName "!!!" ⟨false, "camelCase"⟩ = "hasValue" ∧
    buildPredicateIrisForColumns ["!!!"] ⟨false, "snake_case"⟩
      "https://example.org/TableNova/" = [("!!!", "https://example.org/TableNova/")] :=
  ⟨(empty_localname_cases "!!!" "https://example.org/TableNova/" (by decide)).1,
   (empty_localname_cases "!!!" "https://example.org/TableNova/" (by decide)).2.2.2.1,
   (empty_localname_cases "!!!" "https://example.org/TableNova/" (by decide)).2.2.2.2⟩

/-! ### Claim C7 -/

/-- A host on which `Number(...)` and `new Date(...)` always fail — used to
exercise the defaulting paths of the literal coercer. -/
def trivialHost : Host where
  parseNumber := fun _ => none
  parseDate := fun _ => none
  parseNumber_ne := fun _ _ hr => nomatch hr
  parseDate_ne := fun _ _ hr => nomatch hr

set_option maxHeartbeats 2000000 in
/-- C7: the literal coercer degrades malformed input to defined defaults and
never fails: a cell that `parseInt` cannot parse coerces to lexical `"0"`
under `xsd:integer`; a non-numeric cell coerces to `"0"` under
`xsd:decimal`/`xsd:double`/`xsd:float`; an unparseable `xsd:dateTime` cell
defaults to the Unix epoch instant; an unrecognized non-empty `xsd:boolean`
cell coerces to `"true"` and an empty one to `"false"`. -/
theorem literal_coercer_defaults (h : Host) (v : String) :
    (parseIntPrefix (jsTrim v) = none →
      buildLiteralObject h v "http://www.w3.org/2001/XMLSchema#integer" =
        Obj.literal "0" "http://www.w3.org/2001/XMLSchema#integer") ∧
    (h.parseNumber (jsTrim v) = none →
      buildLiteralObject h v "http://www.w3.org/2001/XMLSchema#decimal" =
        Obj.literal "0" "http://www.w3.org/2001/XMLSchema#decimal" ∧
      buildLiteralObject h v "http://www.w3.org/2001/XMLSchema#double" =
        Obj.literal "0" "http://www.w3.org/2001/XMLSchema#double" ∧
      buildLiteralObject h v "http://www.w3.org/2001/XMLSchema#float" =
        Obj.literal "0" "http://www.w3.org/2001/XMLSchema#float") ∧
    (h.parseDate (jsTrim v) = none →
      buildLiteralObject h v "http://www.w3.org/2001/XMLSchema#dateTime" =
        Obj.literal "1970-01-01T00:00:00.000Z" "http://www.w3.org/2001/XMLSchema#dateTime") ∧
    (lowerStr (jsTrim v) ∉ (["1", "true", "yes", "y", "0", "false", "no", "n"] : List String) →
      jsTrim v ≠ "" →
      buildLiteralObject h v "http://www.w3.org/2001/XMLSchema#boolean" =
        Obj.literal "true" "http://www.w3.org/2001/XMLSchema#boolean") ∧
    (jsTrim v = "" →
      buildLiteralObject h v "http://www.w3.org/2001/XMLSchema#boolean" =
        Obj.literal "false" "http://www.w3.org/2001/XMLSchema#boolean") := by
  refine ⟨?_, ?_, ?_, ?_, ?_⟩
  · intro hint
    unfold buildLiteralObject
    simp only [show endsWithJs "http://www.w3.org/2001/XMLSchema#integer" "#anyURI" = false
        from by decide,
      show endsWithJs "http://www.w3.org/2001/XMLSchema#integer" "#boolean" = false from by decide,
      show endsWithJs "http://www.w3.org/2001/XMLSchema#integer" "#integer" = true from by decide,
      Bool.false_and, Bool.false_eq_true, if_false, if_true]
    unfold toIntegerLexical
    rw [jsTrim_idem, hint]
  · intro hnum
    have core : ∀ dt : String,
        endsWithJs dt "#anyURI" = false → endsWithJs dt "#boolean" = false →
        endsWithJs dt "#integer" = false →
        (endsWithJs dt "#decimal" || endsWithJs dt "#double" || endsWithJs dt "#float") = true →
        buildLiteralObject h v dt = Obj.literal "0" dt := by
      intro dt h1 h2 h3 h4
      unfold buildLiteralObject
      simp only [h1, h2, h3, h4, Bool.false_and, Bool.false_eq_true, if_false, if_true]
      unfold toNumberLexical
      rw [jsTrim_idem, hnum]
      rfl
    exact ⟨core _ (by decide) (by decide) (by decide) (by decide),
      core _ (by decide) (by decide) (by decide) (by decide),
      core _ (by decide) (by decide) (by decide) (by decide)⟩
  · intro hdate
    unfold buildLiteralObject
    simp only [show endsWithJs "http://www.w3.org/2001/XMLSchema#dateTime" "#anyURI" = false
        from by decide,
      show endsWithJs "http://www.w3.org/2001/XMLSchema#dateTime" "#boolean" = false from by decide,
      show endsWithJs "http://www.w3.org/2001/XMLSchema#dateTime" "#integer" = false from by decide,
      show endsWithJs "http://www.w3.org/2001/XMLSchema#dateTime" "#decimal" = false from by decide,
      show endsWithJs "http://www.w3.org/2001/XMLSchema#dateTime" "#double" = false from by decide,
      show endsWithJs "http://www.w3.org/2001/XMLSchema#dateTime" "#float" = false from by decide,
      show endsWithJs "http://www.w3.org/2001/XMLSchema#dateTime" "#dateTime" = true from by decide,
      Bool.false_and, Bool.false_eq_true, Bool.or_self, if_false, if_true]
    unfold toDateTimeLexical
    rw [jsTrim_idem, hdate]
    rfl
  · intro hmem hne
    unfold buildLiteralObject
    simp only [show endsWithJs "http://www.w3.org/2001/XMLSchema#boolean" "#anyURI" = false
        from by decide,
      show endsWithJs "http://www.w3.org/2001/XMLSchema#boolean" "#boolean" = true from by decide,
      Bool.false_and, Bool.false_eq_true, if_false, if_true]
    simp only [List.mem_cons, List.not_mem_nil, or_false, not_or] at hmem
    obtain ⟨n1, n2, n3, n4, n5, n6, n7, n8⟩ := hmem
    unfold toBooleanLexical
    rw [jsTrim_idem]
    simp [n1, n2, n3, n4, n5, n6, n7, n8, lowerStr_ne_empty hne]
  · intro hv
    unfold buildLiteralObject
    simp only [show endsWithJs "http://www.w3.org/2001/XMLSchema#boolean" "#anyURI" = false
        from by decide,
      show endsWithJs "http://www.w3.org/2001/XMLSchema#boolean" "#boolean" = true from by decide,
      Bool.false_and, Bool.false_eq_true, if_false, if_true]
    rw [show toBooleanLexical (jsTrim v) = "false" from by rw [hv]; decide]

/-- Witness for C7 at concrete malformed cells on the always-failing host. -/
theorem literal_coercer_defaults_witness :
    buildLiteralObject trivialHost "abc" "http://www.w3.org/2001/XMLSchema#integer" =
      Obj.literal "0" "http://www.w3.org/2001/XMLSchema#integer" ∧
    buildLiteralObject trivialHost "abc" "http://www.w3.org/2001/XMLSchema#decimal" =
      Obj.literal "0" "http://www.w3.org/2001/XMLSchema#decimal" ∧
    buildLiteralObject trivialHost "perhaps" "http://www.w3.org/2001/XMLSchema#boolean" =
      Obj.literal "true" "http://www.w3.org/2001/XMLSchema#boolean" ∧
    buildLiteralObject trivialHost "  " "http://www.w3.org/2001/XMLSchema#boolean" =
      Obj.literal "false" "http://www.w3.org/2001/XMLSchema#boolean" ∧
    buildLiteralObject trivialHost "not a date" "http://www.w3.org/2001/XMLSchema#dateTime" =
      Obj.literal "1970-01-01T00:00:00.000Z" "http://www.w3.org/2001/XMLSchema#dateTime" :=
  ⟨(literal_coercer_defaults trivialHost "abc").1 (by decide),
   ((literal_coercer_defaults trivialHost "abc").2.1 rfl).1,
   (literal_coercer_defaults trivialHost "perhaps").2.2.2.1 (by decide) (by decide),
   (literal_coercer_defaults trivialHost "  ").2.2.2.2 (by decide),
   (literal_coercer_defaults trivialHost "not a date").2.2.1 rfl⟩

/-! ### Claim C4 -/

/-- Calendar components on which the `Date.UTC`/`toISOString` model is
faithful (years 100–9999 avoid the JS two-digit-year remapping, months are
the 0–11 `getUTCMonth` range, days stay in one month). -/
def validUtcDate (n : UtcNow) : Prop :=
  100 ≤ n.year ∧ n.year ≤ 9999 ∧ n.month < 12 ∧ 1 ≤ n.day ∧ n.day ≤ 31

instance (n : UtcNow) : Decidable (validUtcDate n) := by
  unfold validUtcDate; infer_instance

theorem formatUtcDate_len (n : UtcNow) : (formatUtcDate n).data.length = 10 := by
  simp [formatUtcDate, pad4, pad2]

theorem formatUtcDate_inj {n₁ n₂ : UtcNow} (h₁ : validUtcDate n₁) (h₂ : validUtcDate n₂)
    (h : (formatUtcDate n₁).data = (formatUtcDate n₂).data) :
    n₁.year = n₂.year ∧ n₁.month = n₂.month ∧ n₁.day = n₂.day := by
  obtain ⟨hy₁, hy₁u, hm₁, hd₁, hd₁u⟩ := h₁
  obtain ⟨hy₂, hy₂u, hm₂, hd₂, hd₂u⟩ := h₂
  unfold formatUtcDate pad4 pad2 at h
  simp only [String.data, List.cons_append, List.nil_append, List.cons.injEq, and_true,
    true_and] at h
  have m10 : ∀ k : Nat, k % 10 < 10 := fun k => Nat.mod_lt _ (by norm_num)
  obtain ⟨e1, e2, e3, e4, e5, e6, e7, e8⟩ :
      n₁.year / 1000 % 10 = n₂.year / 1000 % 10 ∧
      n₁.year / 100 % 10 = n₂.year / 100 % 10 ∧
      n₁.year / 10 % 10 = n₂.year / 10 % 10 ∧
      n₁.year % 10 = n₂.year % 10 ∧
      (n₁.month + 1) / 10 % 10 = (n₂.month + 1) / 10 % 10 ∧
      (n₁.month + 1) % 10 = (n₂.month + 1) % 10 ∧
      n₁.day / 10 % 10 = n₂.day / 10 % 10 ∧
      n₁.day % 10 = n₂.day % 10 := by
    obtain ⟨c1, c2, c3, c4, c5, c6, c7, c8⟩ := h
    exact ⟨digitChar_inj10 (m10 _) (m10 _) c1, digitChar_inj10 (m10 _) (m10 _) c2,
      digitChar_inj10 (m10 _) (m10 _) c3, digitChar_inj10 (m10 _) (m10 _) c4,
      digitChar_inj10 (m10 _) (m10 _) c5, digitChar_inj10 (m10 _) (m10 _) c6,
      digitChar_inj10 (m10 _) (m10 _) c7, digitChar_inj10 (m10 _) (m10 _) c8⟩
  refine ⟨by omega, by omega, by omega⟩

theorem buildRunGraphIri_data (base fn : String) (n : UtcNow) :
    (buildRunGraphIri base fn n).data =
      (ensureTrailingSlash base).data ++
        ((formatUtcDate n).data ++ ('/' :: (slugify (stripExtension fn)).data)) := by
  unfold buildRunGraphIri
  simp [String.data_append]

/-- C4 (amended): with the fixed base namespace, the run graph identifier is
determined exactly by the UTC calendar day and the filename slug — equal
identifiers iff equal (year, month, day) and equal slugs of the
extension-stripped filenames.  In particular the time of day is irrelevant
and different UTC days give different identifiers, but distinct filenames
with the same slug collide. -/
theorem run_graph_iri_iff (base fn₁ fn₂ : String) (n₁ n₂ : UtcNow)
    (h₁ : validUtcDate n₁) (h₂ : validUtcDate n₂) :
    buildRunGraphIri base fn₁ n₁ = buildRunGraphIri base fn₂ n₂ ↔
      (n₁.year = n₂.year ∧ n₁.month = n₂.month ∧ n₁.day = n₂.day ∧
       slugify (stripExtension fn₁) = slugify (stripExtension fn₂)) := by
  constructor
  · intro h
    have hd : (ensureTrailingSlash base).data ++
        ((formatUtcDate n₁).data ++ ('/' :: (slugify (stripExtension fn₁)).data)) =
        (ensureTrailingSlash base).data ++
        ((formatUtcDate n₂).data ++ ('/' :: (slugify (stripExtension fn₂)).data)) := by
      rw [← buildRunGraphIri_data, ← buildRunGraphIri_data, h]
    have hd₂ : (formatUtcDate n₁).data ++ ('/' :: (slugify (stripExtension fn₁)).data) =
        (formatUtcDate n₂).data ++ ('/' :: (slugify (stripExtension fn₂)).data) :=
      List.append_cancel_left hd
    obtain ⟨hdate, hrest⟩ :=
      List.append_inj hd₂ (by rw [formatUtcDate_len, formatUtcDate_len])
    rw [List.cons.injEq] at hrest
    obtain ⟨hy, hm, hdy⟩ := formatUtcDate_inj h₁ h₂ hdate
    exact ⟨hy, hm, hdy, strData_inj hrest.2⟩
  · rintro ⟨hy, hm, hd, hs⟩
    apply strData_inj
    rw [buildRunGraphIri_data, buildRunGraphIri_data, hs]
    have hdate : formatUtcDate n₁ = formatUtcDate n₂ := by
      unfold formatUtcDate
      rw [hy, hm, hd]
    rw [hdate]

/-- Witness for C4: same filename, same UTC day, different times of day —
identical run graph identifier. -/
theorem run_graph_iri_iff_witness :
    buildRunGraphIri "https://example.org/TableNova/run#" "data.csv" ⟨2026, 9, 12, 7, 30, 0, 0⟩ =
      buildRunGraphIri "https://example.org/TableNova/run#" "data.csv"
        ⟨2026, 9, 12, 23, 59, 59, 999⟩ :=
  (run_graph_iri_iff "https://example.org/TableNova/run#" "data.csv" "data.csv"
      ⟨2026, 9, 12, 7, 30, 0, 0⟩ ⟨2026, 9, 12, 23, 59, 59, 999⟩
      (by decide) (by decide)).mpr ⟨rfl, rfl, rfl, rfl⟩

set_option maxHeartbeats 1000000 in
/-- Counterexample to C4 as stated: two different filenames whose slugs
coincide (`"a b.csv"` and `"a-b.csv"`) produce the same run graph
identifier on the same UTC day. -/
theorem run_graph_iri_filename_collision :
    "a b.csv" ≠ "a-b.csv" ∧
    buildRunGraphIri "https://example.org/TableNova/run#" "a b.csv" ⟨2026, 9, 12, 0, 0, 0, 0⟩ =
      buildRunGraphIri "https://example.org/TableNova/run#" "a-b.csv" ⟨2026, 9, 12, 0, 0, 0, 0⟩ := by
  constructor
  · decide
  · decide

/-! ### Claim C5 -/

theorem natLex_no_underscore (n : Nat) : ∀ c ∈ (natLex n).data, c ≠ '_' := by
  intro c hc heq
  have hdig := natLex_digits n c hc
  subst heq
  exact absurd hdig (by decide)

theorem suffix_form_inj {b₁ b₂ : String} {n₁ n₂ : Nat}
    (h : b₁ ++ "_" ++ natLex n₁ = b₂ ++ "_" ++ natLex n₂) : b₁ = b₂ ∧ n₁ = n₂ := by
  have hd : b₁.data ++ '_' :: (natLex n₁).data = b₂.data ++ '_' :: (natLex n₂).data := by
    have := congrArg String.data h
    simpa [String.data_append] using this
  obtain ⟨hb, hn⟩ := sepSplit (natLex_no_underscore n₁) (natLex_no_underscore n₂) hd
  exact ⟨strData_inj hb, natLex_inj (strData_inj hn)⟩

/-- No listed key is itself the `_n`-suffixed form of a listed key, for any
suffix index up to `bound` — rules out headers like `a, a_2, a` that defeat
the dedupe suffixing. -/
def keyCollisionFree (bases : List String) (bound : Nat) : Prop :=
  ∀ x ∈ bases, ∀ b ∈ bases, ∀ n, n ≤ bound → 2 ≤ n → x ≠ b ++ "_" ++ natLex n

instance (bases : List String) (bound : Nat) : Decidable (keyCollisionFree bases bound) := by
  unfold keyCollisionFree
  infer_instance

theorem mem_dedupeGo : ∀ (keys : List String) (seen : String → Nat) (x : String),
    x ∈ dedupeGo seen keys →
    ∃ k ∈ keys, (x = normalizeKey k ∧ seen (normalizeKey k) = 0) ∨
      ∃ n, x = normalizeKey k ++ "_" ++ natLex n ∧
        seen (normalizeKey k) + 1 ≤ n ∧ 2 ≤ n ∧ n ≤ seen (normalizeKey k) + keys.length := by
  intro keys
  induction keys with
  | nil =>
    intro seen x hx
    simp [dedupeGo] at hx
  | cons k rest ih =>
    intro seen x hx
    simp only [dedupeGo, List.mem_cons] at hx
    rcases hx with hx | hx
    · by_cases h0 : seen (normalizeKey k) = 0
      · exact ⟨k, by simp, Or.inl ⟨by rw [hx]; simp [h0], h0⟩⟩
      · refine ⟨k, by simp, Or.inr ⟨seen (normalizeKey k) + 1, ?_, le_refl _, by omega, by simp⟩⟩
        rw [hx, if_neg (by omega)]
    · obtain ⟨k', hk', hcase⟩ := ih _ _ hx
      refine ⟨k', by simp [hk'], ?_⟩
      by_cases hbb : normalizeKey k' = normalizeKey k
      · rcases hcase with ⟨hxk, h0⟩ | ⟨n, hxn, hlo, h2, hhi⟩
        · rw [hbb, if_pos rfl] at h0
          omega
        · rw [hbb, if_pos rfl] at hlo hhi
          rw [hbb]
          exact Or.inr ⟨n, by rw [hxn, hbb], by omega, h2, by simp; omega⟩
      · rcases hcase with ⟨hxk, h0⟩ | ⟨n, hxn, hlo, h2, hhi⟩
        · rw [if_neg hbb] at h0
          exact Or.inl ⟨hxk, h0⟩
        · rw [if_neg hbb] at hlo hhi
          exact Or.inr ⟨n, hxn, hlo, h2, by simp; omega⟩

theorem dedupeGo_nodup : ∀ (keys : List String) (seen : String → Nat) (B : List String) (N : Nat),
    (∀ k ∈ keys, normalizeKey k ∈ B) →
    (∀ b, seen b + keys.length ≤ N) →
    keyCollisionFree B N →
    (dedupeGo seen keys).Nodup := by
  intro keys
  induction keys with
  | nil =>
    intro seen B N _ _ _
    simp [dedupeGo]
  | cons k rest ih =>
    intro seen B N hsub hcnt hfree
    have hcnt' : ∀ b, (if b = normalizeKey k then seen (normalizeKey k) + 1 else seen b) +
        rest.length ≤ N := by
      intro b
      have h1 := hcnt b
      have h2 := hcnt (normalizeKey k)
      simp only [List.length_cons] at h1 h2
      split <;> omega
    simp only [dedupeGo]
    refine List.nodup_cons.mpr ⟨?_, ih _ B N (fun k' hk' => hsub k' (by simp [hk'])) hcnt' hfree⟩
    intro hmem
    obtain ⟨k', hk', hcase⟩ := mem_dedupeGo rest _ _ hmem
    have hbase : normalizeKey k ∈ B := hsub k (by simp)
    have hb' : normalizeKey k' ∈ B := hsub k' (by simp [hk'])
    by_cases h0 : seen (normalizeKey k) = 0
    · rw [if_pos (by omega)] at hcase
      rcases hcase with ⟨hxk, hs0⟩ | ⟨m, hxm, hlo, h2, hhi⟩
      · by_cases hbb : normalizeKey k' = normalizeKey k
        · rw [hbb, if_pos rfl] at hs0
          omega
        · exact hbb (by rw [← hxk])
      · have hmN : m ≤ N := by
          have := hcnt' (normalizeKey k')
          omega
        exact hfree (normalizeKey k) hbase (normalizeKey k') hb' m hmN h2 hxm
    · rw [if_neg (by omega)] at hcase
      rcases hcase with ⟨hxk, hs0⟩ | ⟨m, hxm, hlo, h2, hhi⟩
      · refine hfree (normalizeKey k') hb' (normalizeKey k) hbase (seen (normalizeKey k) + 1)
          ?_ (by omega) (by rw [← hxk])
        have := hcnt (normalizeKey k)
        simp only [List.length_cons] at this
        omega
      · obtain ⟨hbeq, hneq⟩ := suffix_form_inj hxm
        by_cases hbb : normalizeKey k' = normalizeKey k
        · rw [hbb, if_pos rfl] at hlo
          omega
        · exact hbb hbeq.symm

theorem dedupeGo_length : ∀ (keys : List String) (seen : String → Nat),
    (dedupeGo seen keys).length = keys.length := by
  intro keys
  induction keys with
  | nil => intro seen; rfl
  | cons k rest ih => intro seen; simp [dedupeGo, ih]

/-- C5 (amended): with `treatFirstRowAsHeader` and a non-empty header, the
keys are the trimmed header cells (empty cells defaulting to `Column`),
deduplicated by suffixing `_2`, `_3`, … in order of first repetition with
the column order and count preserved; they are pairwise distinct provided
no normalized header label is itself the `_n`-suffixed form of another
label (without that proviso dedupe can collide, see the counterexample). -/
theorem column_keys_header_branch (header : List String) (rows : List (List String))
    (hne : 0 < header.length)
    (hfree : keyCollisionFree ((header.map (fun h => jsOr (jsTrim h) "Column")).map normalizeKey)
      header.length) :
    buildColumnKeys (some header) rows true =
      dedupeKeys (header.map (fun h => jsOr (jsTrim h) "Column")) ∧
    (buildColumnKeys (some header) rows true).length = header.length ∧
    (buildColumnKeys (some header) rows true).Nodup := by
  have hb : buildColumnKeys (some header) rows true =
      dedupeKeys (header.map (fun h => jsOr (jsTrim h) "Column")) := by
    simp [buildColumnKeys, hne]
  refine ⟨hb, ?_, ?_⟩
  · rw [hb]
    unfold dedupeKeys
    rw [dedupeGo_length]
    simp
  · rw [hb]
    exact dedupeGo_nodup (header.map (fun h => jsOr (jsTrim h) "Column")) (fun _ => 0)
      ((header.map (fun h => jsOr (jsTrim h) "Column")).map normalizeKey) header.length
      (fun k hk => List.mem_map_of_mem _ hk) (fun b => by simp) hfree

/-- Witness for C5 at the header `["a", "b", "a"]`: keys `a, b, a_2`,
pairwise distinct. -/
theorem column_keys_header_branch_witness :
    buildColumnKeys (some ["a", "b", "a"]) [] true =
      dedupeKeys (["a", "b", "a"].map (fun h => jsOr (jsTrim h) "Column")) ∧
    (buildColumnKeys (some ["a", "b", "a"]) [] true).length = 3 ∧
    (buildColumnKeys (some ["a", "b", "a"]) [] true).Nodup :=
  column_keys_header_branch ["a", "b", "a"] [] (by decide) (by decide)

/-- Counterexample to C5 as stated: the header `["a", "a_2", "a"]` yields
keys `["a", "a_2", "a_2"]` — the dedupe suffix for the repeated `a`
collides with the literal header label `a_2`, so the keys are not
pairwise distinct. -/
theorem column_keys_duplicate_collision :
    buildColumnKeys (some ["a", "a_2", "a"]) [] true = ["a", "a_2", "a_2"] ∧
    ¬ (buildColumnKeys (some ["a", "a_2", "a"]) [] true).Nodup := by
  constructor
  · decide
  · decide

/-! ### Claim C1 -/

theorem toBooleanLexical_ne (s : String) : toBooleanLexical s ≠ "" := by
  unfold toBooleanLexical
  split
  · decide
  · split
    · decide
    · split <;> decide

theorem intLex_ne (n : Int) : intLex n ≠ "" := by
  unfold intLex
  split
  · apply str_ne_of_data
    rw [String.data_append]
    simp
  · exact natLex_ne_empty _

theorem toIntegerLexical_ne (s : String) : toIntegerLexical s ≠ "" := by
  unfold toIntegerLexical
  split
  · exact intLex_ne _
  · decide

theorem toNumberLexical_ne (h : Host) (s : String) : toNumberLexical h s ≠ "" := by
  unfold toNumberLexical
  rcases hp : h.parseNumber (jsTrim s) with _ | r
  · simp
  · simpa using h.parseNumber_ne _ r hp

theorem toDateTimeLexical_ne (h : Host) (s : String) : toDateTimeLexical h s ≠ "" := by
  unfold toDateTimeLexical
  rcases hp : h.parseDate (jsTrim s) with _ | r
  · simp
  · simpa using h.parseDate_ne _ r hp

/-- `buildLiteralObject` produces a literal only with the datatype it was
given and with a nonempty lexical form (for a nonempty trimmed cell). -/
theorem buildLiteralObject_literal_spec {h : Host} {cellv dtv w d : String}
    (hc : jsTrim cellv ≠ "")
    (hobj : buildLiteralObject h cellv dtv = Obj.literal w d) : w ≠ "" ∧ d = dtv := by
  unfold buildLiteralObject at hobj
  split at hobj
  · exact absurd hobj (by simp)
  · split at hobj
    · obtain ⟨hw, hd⟩ := Obj.literal.inj hobj
      exact ⟨hw ▸ toBooleanLexical_ne _, hd.symm⟩
    · split at hobj
      · obtain ⟨hw, hd⟩ := Obj.literal.inj hobj
        exact ⟨hw ▸ toIntegerLexical_ne _, hd.symm⟩
      · split at hobj
        · obtain ⟨hw, hd⟩ := Obj.literal.inj hobj
          exact ⟨hw ▸ toNumberLexical_ne _ _, hd.symm⟩
        · split at hobj
          · obtain ⟨hw, hd⟩ := Obj.literal.inj hobj
            exact ⟨hw ▸ toDateTimeLexical_ne _ _, hd.symm⟩
          · obtain ⟨hw, hd⟩ := Obj.literal.inj hobj
            exact ⟨hw ▸ hc, hd.symm⟩

/-- Everything the later claims need about one successful cell emission:
the record carries the row subject and the run graph, it converts back to
exactly the stored quad, and a literal record is never empty. -/
theorem cellBlank_false_trim {cell? : Option String} (hb : cellBlank cell? = false) :
    jsTrim (cell?.getD "") ≠ "" := by
  cases cell? with
  | none => simp [cellBlank] at hb
  | some cell => simpa [cellBlank] using hb

theorem cellEmission_spec {h : Host} {options : FileOptions}
    {subj g pIri key : String} {cell? : Option String} {q : Quad} {rec : QuadRecord}
    (he : cellEmission (buildLiteralObject h) options subj g pIri key cell? = some (q, rec)) :
    rec.s = subj ∧ rec.g = g ∧ recToQuad rec = q ∧
      (rec.oType = OType.lit → rec.oValue ≠ "") := by
  unfold cellEmission at he
  split at he
  · exact absurd he (by simp)
  · split at he
    · exact absurd he (by simp)
    · next hb =>
      have ht : jsTrim (cell?.getD "") ≠ "" := cellBlank_false_trim (by simpa using hb)
      have hdt : jsOr ((options.datatypesByColumnKey.lookup key).getD "") xsdString ≠ "" :=
        jsOr_ne_of_ne (by decide)
      split at he
      · next v hobj =>
        simp only [Option.some.injEq, Prod.mk.injEq] at he
        obtain ⟨hq, hrec⟩ := he
        subst hq; subst hrec
        refine ⟨rfl, rfl, rfl, ?_⟩
        intro habs
        exact absurd habs (by simp)
      · next v d hobj =>
        simp only [Option.some.injEq, Prod.mk.injEq] at he
        obtain ⟨hq, hrec⟩ := he
        subst hq; subst hrec
        obtain ⟨hw, hd⟩ := buildLiteralObject_literal_spec ht hobj
        refine ⟨rfl, rfl, ?_, fun _ => hw⟩
        have hdne : d ≠ "" := hd ▸ hdt
        simp only [recToQuad, Option.getD_some]
        rw [jsOr_of_ne hdne]

theorem lookup_mem : ∀ {l : List (String × String)} {k v : String},
    l.lookup k = some v → (k, v) ∈ l := by
  intro l
  induction l with
  | nil => intro k v h; simp [List.lookup] at h
  | cons kv rest ih =>
    intro k v h
    obtain ⟨k', v'⟩ := kv
    rw [List.lookup] at h
    cases hbeq : (k == k') with
    | true =>
      rw [hbeq] at h
      simp only [Option.some.injEq] at h
      have hk : k = k' := by simpa using hbeq
      subst hk
      subst h
      exact List.mem_cons_self _ _
    | false =>
      rw [hbeq] at h
      exact List.mem_cons_of_mem _ (ih h)

theorem lookup_isSome_of_mem_keys : ∀ {l : List (String × String)} {k : String},
    k ∈ l.map Prod.fst → (l.lookup k).isSome := by
  intro l
  induction l with
  | nil => intro k h; simp at h
  | cons kv rest ih =>
    intro k h
    obtain ⟨k', v'⟩ := kv
    rw [List.lookup]
    cases hbeq : (k == k') with
    | true => rfl
    | false =>
      show (List.lookup k rest).isSome = true
      apply ih
      simp only [List.map_cons, List.mem_cons] at h
      rcases h with h | h
      · exact absurd h (by simpa using hbeq)
      · exact h

theorem cellEmission_toList_length (lit : String → String → Obj) (options : FileOptions)
    (subj g pIri key : String) (cell? : Option String) (hp : pIri ≠ "") :
    ((cellEmission lit options subj g pIri key cell?).toList).length =
      if cellBlank cell? then 0 else 1 := by
  unfold cellEmission
  rw [if_neg hp]
  by_cases hb : cellBlank cell? = true
  · simp [hb]
  · rw [if_neg hb, if_neg hb]
    rcases hobj : lit (cell?.getD "")
        (jsOr ((options.datatypesByColumnKey.lookup key).getD "") xsdString) with v | ⟨v, d⟩ <;>
      rfl

theorem rowEmissionsGo_length (lit : String → String → Obj) (options : FileOptions)
    (predicateIris : List (String × String)) (subj g : String) (row : List String) :
    ∀ (ks : List String) (c : Nat),
    (∀ key ∈ ks, (predicateIris.lookup key).getD "" ≠ "") →
    (rowEmissionsGo lit options predicateIris subj g row c ks).length =
      ((row.drop c).take ks.length).countP (fun cell => !(jsTrim cell == "")) := by
  intro ks
  induction ks with
  | nil =>
    intro c _
    simp [rowEmissionsGo]
  | cons key rest ih =>
    intro c hk
    simp only [rowEmissionsGo, List.length_append]
    rw [cellEmission_toList_length lit options subj g _ key (row.get? c) (hk key (by simp))]
    rw [ih (c + 1) (fun key' hk' => hk key' (by simp [hk']))]
    rcases hdrop : row.drop c with _ | ⟨cell, tail⟩
    · have hnil : row.drop (c + 1) = [] := by
        rw [List.drop_eq_nil_iff] at hdrop ⊢
        omega
      have hget : row.get? c = none := by
        rw [List.get?_eq_getElem?, ← List.head?_drop, hdrop]
        rfl
      rw [hget, hnil]
      simp [cellBlank]
    · have hget : row.get? c = some cell := by
        rw [List.get?_eq_getElem?, ← List.head?_drop, hdrop]
        rfl
      have htail : row.drop (c + 1) = tail := by
        have h1 := List.tail_drop row c
        rw [hdrop] at h1
        exact h1.symm
      rw [hget, htail]
      simp only [List.length_cons, List.take_succ_cons, List.countP_cons]
      by_cases ht : jsTrim cell = ""
      · simp [cellBlank, ht]
      · simp [cellBlank, ht]
        omega

theorem rowsGo_length (emit : Nat → List String → List (Quad × QuadRecord))
    (f : List String → Nat) (hemit : ∀ r row, (emit r row).length = f row) :
    ∀ (rows : List (List String)) (r : Nat),
    (rowsGo emit r rows).length = (rows.map f).sum := by
  intro rows
  induction rows with
  | nil => intro r; rfl
  | cons row rest ih =>
    intro r
    simp [rowsGo, hemit, ih]

/-- The number of non-blank cells among the first `k` columns of each row. -/
def countNonBlankUpTo (rows : List (List String)) (k : Nat) : Nat :=
  (rows.map (fun row => ((row.take k).countP (fun cell => !(jsTrim cell == ""))))).sum

/-- The total number of non-blank cells of the rows (the count the original
claim uses). -/
def countNonBlankAll (rows : List (List String)) : Nat :=
  (rows.map (fun row => (row.countP (fun cell => !(jsTrim cell == ""))))).sum

theorem mem_rowsGo {emit : Nat → List String → List (Quad × QuadRecord)} :
    ∀ {rows : List (List String)} {r0 : Nat} {x : Quad × QuadRecord},
    x ∈ rowsGo emit r0 rows → ∃ r row, row ∈ rows ∧ x ∈ emit r row := by
  intro rows
  induction rows with
  | nil => intro r0 x hx; simp [rowsGo] at hx
  | cons row rest ih =>
    intro r0 x hx
    simp only [rowsGo, List.mem_append] at hx
    rcases hx with hx | hx
    · exact ⟨r0, row, by simp, hx⟩
    · obtain ⟨r, row', hrow', hx'⟩ := ih hx
      exact ⟨r, row', by simp [hrow'], hx'⟩

theorem mem_rowEmissionsGo {lit : String → String → Obj} {options : FileOptions}
    {predicateIris : List (String × String)} {subj g : String} {row : List String} :
    ∀ {ks : List String} {c : Nat} {x : Quad × QuadRecord},
    x ∈ rowEmissionsGo lit options predicateIris subj g row c ks →
    ∃ c' key, cellEmission lit options subj g ((predicateIris.lookup key).getD "") key
      (row.get? c') = some x := by
  intro ks
  induction ks with
  | nil => intro c x hx; simp [rowEmissionsGo] at hx
  | cons key rest ih =>
    intro c x hx
    simp only [rowEmissionsGo, List.mem_append] at hx
    rcases hx with hx | hx
    · refine ⟨c, key, ?_⟩
      rcases he : cellEmission lit options subj g ((predicateIris.lookup key).getD "") key
          (row.get? c) with _ | e
      · rw [he] at hx
        simp at hx
      · rw [he] at hx
        simp only [Option.toList_some, List.mem_singleton] at hx
        rw [hx]
    · exact ih hx

set_option maxHeartbeats 1000000 in
/-- C1 (amended): for every grid, options and predicate-IRI map with
non-empty IRI values, `buildDatasetFromTabular` emits exactly one
`QuadRecord` per (effective data row, non-blank cell in a column covered by
the predicate map) pair — so the record count equals the number of
non-blank cells among the first `predicateIris.length` columns of the
effective data rows (cells beyond the derived column keys are ignored, see
the counterexample) — and no emitted record carries an empty-string
literal object. -/
theorem quad_count_and_no_empty_literals (h : Host) (mintF : String → Nat → String)
    (baseInstanceIri : String) (tabular : TabularData) (options : FileOptions)
    (predicateIris : List (String × String)) (graphIri : String)
    (hv : ∀ kv ∈ predicateIris, kv.2 ≠ "") :
    ((buildDatasetFromTabular (buildLiteralObject h) mintF baseInstanceIri tabular options
        predicateIris graphIri).2).length =
      countNonBlankUpTo (effectiveDataRows tabular options.treatFirstRowAsHeader)
        predicateIris.length ∧
    ∀ rec ∈ (buildDatasetFromTabular (buildLiteralObject h) mintF baseInstanceIri tabular options
        predicateIris graphIri).2, rec.oType = OType.lit → rec.oValue ≠ "" := by
  have hkeys : ∀ key ∈ predicateIris.map Prod.fst, (predicateIris.lookup key).getD "" ≠ "" := by
    intro key hk
    have hs := lookup_isSome_of_mem_keys hk
    rcases hl : predicateIris.lookup key with _ | v
    · rw [hl] at hs
      simp at hs
    · simp only [hl, Option.getD_some]
      exact hv _ (lookup_mem hl)
  constructor
  · unfold buildDatasetFromTabular
    rw [List.length_map]
    rw [rowsGo_length _
      (fun row => ((row.take predicateIris.length).countP (fun cell => !(jsTrim cell == ""))))
      (fun r row => by
        unfold rowEmissions
        rw [rowEmissionsGo_length _ _ _ _ _ _ _ 0 hkeys]
        simp [List.drop_zero, List.length_map])]
    rfl
  · intro rec hrec hlit
    unfold buildDatasetFromTabular at hrec
    rw [List.mem_map] at hrec
    obtain ⟨pr, hpr, hsnd⟩ := hrec
    obtain ⟨r', row, _, hx⟩ := mem_rowsGo hpr
    unfold rowEmissions at hx
    obtain ⟨c', key, he⟩ := mem_rowEmissionsGo hx
    have he' : cellEmission (buildLiteralObject h) options (mintF baseInstanceIri r') graphIri
        ((predicateIris.lookup key).getD "") key (row.get? c') = some (pr.1, pr.2) := by
      rw [he]
    obtain ⟨_, _, _, hne⟩ := cellEmission_spec he'
    rw [hsnd] at hne
    exact hne hlit

set_option maxHeartbeats 2000000 in
/-- Counterexample to C1 as stated: a data row wider than the header
(header `a`, row `x, y`) has two non-blank cells but produces only one
quad record — the uncovered cell `y` is silently dropped, so the emitted
count does not equal the non-blank cell count of the effective data rows. -/
theorem quad_count_ragged_counterexample :
    ((buildDatasetFromTabular (buildLiteralObject trivialHost) (fun _ r => natLex r)
        defaultBaseInstanceIri ⟨some ["a"], [["x", "y"]]⟩ ⟨true, [], {}⟩
        (buildPredicateIrisForColumns (buildColumnKeys (some ["a"]) [["x", "y"]] true) {}
          defaultBasePredicateIri) "urn:g").2).length = 1 ∧
    countNonBlankAll (effectiveDataRows ⟨some ["a"], [["x", "y"]]⟩ true) = 2 := by
  constructor
  · decide
  · decide

set_option maxHeartbeats 2000000 in
/-- Witness for C1 at a concrete two-column grid with blank and missing
cells: the record count equals the covered non-blank cell count. -/
theorem quad_count_and_no_empty_literals_witness :
    ((buildDatasetFromTabular (buildLiteralObject trivialHost) (fun _ r => natLex r)
        defaultBaseInstanceIri ⟨some ["a", "b"], [["Ada", " "], ["", "x"], ["y"]]⟩ ⟨true, [], {}⟩
        [("a", "urn:p:hasA"), ("b", "urn:p:hasB")] "urn:g").2).length =
      countNonBlankUpTo
        (effectiveDataRows ⟨some ["a", "b"], [["Ada", " "], ["", "x"], ["y"]]⟩ true) 2 :=
  (quad_count_and_no_empty_literals trivialHost (fun _ r => natLex r) defaultBaseInstanceIri
    ⟨some ["a", "b"], [["Ada", " "], ["", "x"], ["y"]]⟩ ⟨true, [], {}⟩
    [("a", "urn:p:hasA"), ("b", "urn:p:hasB")] "urn:g" (by decide)).1

/-! ### Claim C2 -/

theorem getRun_putRun (db : List StoredRun) (run : StoredRun) :
    getRunDataset (putRun db run) run.graphIri = some run := by
  unfold putRun getRunDataset
  by_cases hany : db.any (fun x => x.graphIri = run.graphIri)
  · rw [if_pos hany]
    induction db with
    | nil => simp at hany
    | cons x rest ih =>
      by_cases hx : x.graphIri = run.graphIri
      · simp [List.find?, hx]
      · have hrest : rest.any (fun x => x.graphIri = run.graphIri) := by
          simp only [List.any_cons, hx] at hany
          simpa using hany
        simp only [List.map_cons, if_neg hx, List.find?]
        rw [decide_eq_false hx]
        exact ih hrest
  · rw [if_neg hany]
    have hnone : db.find? (fun x => decide (x.graphIri = run.graphIri)) = none := by
      rw [List.find?_eq_none]
      intro x hx h
      exact hany (List.any_eq_true.mpr ⟨x, hx, h⟩)
    rw [List.find?_append, hnone]
    simp [List.find?]

set_option maxHeartbeats 1000000 in
/-- C2: a `put` → `get` cycle returns the stored run unchanged, and
`datasetFromQuads` applied to the records `buildDatasetFromTabular` emitted
reconstructs exactly the original in-memory dataset (same subjects,
predicates, typed objects and graph, with the store dedup applied in the
same insertion order) — hence any serializer function produces identical
output for the reloaded dataset and the fresh one. -/
theorem store_roundtrip_reserialization (h : Host) (mintF : String → Nat → String)
    (baseInstanceIri : String) (tabular : TabularData) (options : FileOptions)
    (predicateIris : List (String × String)) (graphIri filename createdAtIso : String)
    (db : List StoredRun) (serialize : List Quad → String) :
    getRunDataset (putRun db ⟨graphIri, filename, createdAtIso,
        (buildDatasetFromTabular (buildLiteralObject h) mintF baseInstanceIri tabular options
          predicateIris graphIri).2⟩) graphIri =
      some ⟨graphIri, filename, createdAtIso,
        (buildDatasetFromTabular (buildLiteralObject h) mintF baseInstanceIri tabular options
          predicateIris graphIri).2⟩ ∧
    datasetFromQuads (buildDatasetFromTabular (buildLiteralObject h) mintF baseInstanceIri
        tabular options predicateIris graphIri).2 =
      (buildDatasetFromTabular (buildLiteralObject h) mintF baseInstanceIri tabular options
        predicateIris graphIri).1 ∧
    serialize (datasetFromQuads (buildDatasetFromTabular (buildLiteralObject h) mintF
        baseInstanceIri tabular options predicateIris graphIri).2) =
      serialize (buildDatasetFromTabular (buildLiteralObject h) mintF baseInstanceIri tabular
        options predicateIris graphIri).1 := by
  have hround : datasetFromQuads (buildDatasetFromTabular (buildLiteralObject h) mintF
      baseInstanceIri tabular options predicateIris graphIri).2 =
      (buildDatasetFromTabular (buildLiteralObject h) mintF baseInstanceIri tabular options
        predicateIris graphIri).1 := by
    have hcong : ∀ pr ∈ rowsGo
        (fun r row => rowEmissions (buildLiteralObject h) options predicateIris
          (mintF baseInstanceIri r) graphIri row)
        0 (effectiveDataRows tabular options.treatFirstRowAsHeader),
        recToQuad pr.2 = pr.1 := by
      intro pr hpr
      obtain ⟨r', row, _, hx⟩ := mem_rowsGo hpr
      unfold rowEmissions at hx
      obtain ⟨c', key, he⟩ := mem_rowEmissionsGo hx
      have he' : cellEmission (buildLiteralObject h) options (mintF baseInstanceIri r') graphIri
          ((predicateIris.lookup key).getD "") key (row.get? c') = some (pr.1, pr.2) := by
        rw [he]
      exact (cellEmission_spec he').2.2.1
    unfold buildDatasetFromTabular datasetFromQuads
    rw [List.map_map]
    exact congrArg storeOf (List.map_congr_left (fun pr hpr => hcong pr hpr))
  exact ⟨getRun_putRun db ⟨graphIri, filename, createdAtIso,
    (buildDatasetFromTabular (buildLiteralObject h) mintF baseInstanceIri tabular options
      predicateIris graphIri).2⟩, hround, congrArg serialize hround⟩

/-! ### Claim C10 -/

theorem natLex_ne_char (n : Nat) {ch : Char} (hch : ch.isDigit = false) :
    ∀ c ∈ (natLex n).data, c ≠ ch := by
  intro c hc heq
  subst heq
  have hd := natLex_digits n c hc
  rw [hd] at hch
  exact Bool.noConfusion hch

theorem buildRowInstanceIri_inj {u₁ u₂ b : String} {r₁ r₂ : Nat} (hne : r₁ ≠ r₂) :
    buildRowInstanceIri u₁ b r₁ ≠ buildRowInstanceIri u₂ b r₂ := by
  intro h
  apply hne
  have hd := congrArg String.data h
  unfold buildRowInstanceIri at hd
  simp only [String.data_append] at hd
  have hshape : ∀ (u : String) (r : Nat),
      ((ensureTrailingSlash b).data ++ u.data ++ ['?', 'r', 'o', 'w', '=']) ++ (natLex r).data =
        ((ensureTrailingSlash b).data ++ u.data ++ ['?', 'r', 'o', 'w']) ++
          '=' :: (natLex r).data := by
    intro u r
    simp
  rw [hshape u₁ r₁, hshape u₂ r₂] at hd
  obtain ⟨-, hdig⟩ :=
    sepSplit (natLex_ne_char r₁ (by decide)) (natLex_ne_char r₂ (by decide)) hd
  exact natLex_inj (strData_inj hdig)

/-- C10: every record of one `buildDatasetFromTabular` invocation carries
the supplied graph IRI, the records are exactly the row-major concatenation
of per-row emissions whose records all carry the subject minted once for
that row (`buildRowInstanceIri` of the row token and zero-based index), and
subjects of different rows never coincide (the decimal row index after the
final `=` separates them regardless of the random tokens). -/
theorem records_graph_and_subjects (h : Host) (uuid : Nat → String)
    (baseInstanceIri : String) (tabular : TabularData) (options : FileOptions)
    (predicateIris : List (String × String)) (graphIri : String) :
    (∀ rec ∈ (buildDatasetFromTabular (buildLiteralObject h)
        (fun base r => buildRowInstanceIri (uuid r) base r) baseInstanceIri tabular options
        predicateIris graphIri).2, rec.g = graphIri) ∧
    ((buildDatasetFromTabular (buildLiteralObject h)
        (fun base r => buildRowInstanceIri (uuid r) base r) baseInstanceIri tabular options
        predicateIris graphIri).2 =
      (rowsGo (fun r row => rowEmissions (buildLiteralObject h) options predicateIris
          (buildRowInstanceIri (uuid r) baseInstanceIri r) graphIri row) 0
        (effectiveDataRows tabular options.treatFirstRowAsHeader)).map Prod.snd) ∧
    (∀ r : Nat, ∀ row : List String, ∀ pr ∈ rowEmissions (buildLiteralObject h) options
        predicateIris (buildRowInstanceIri (uuid r) baseInstanceIri r) graphIri row,
      pr.2.s = buildRowInstanceIri (uuid r) baseInstanceIri r ∧ pr.2.g = graphIri) ∧
    (∀ (u₁ u₂ b : String) (r₁ r₂ : Nat), r₁ ≠ r₂ →
      buildRowInstanceIri u₁ b r₁ ≠ buildRowInstanceIri u₂ b r₂) := by
  have hcell : ∀ (subj : String) (row : List String) (pr : Quad × QuadRecord),
      pr ∈ rowEmissions (buildLiteralObject h) options predicateIris subj graphIri row →
      pr.2.s = subj ∧ pr.2.g = graphIri := by
    intro subj row pr hx
    unfold rowEmissions at hx
    obtain ⟨c', key, he⟩ := mem_rowEmissionsGo hx
    have he' : cellEmission (buildLiteralObject h) options subj graphIri
        ((predicateIris.lookup key).getD "") key (row.get? c') = some (pr.1, pr.2) := by
      rw [he]
    obtain ⟨hs, hg, -, -⟩ := cellEmission_spec he'
    exact ⟨hs, hg⟩
  refine ⟨?_, rfl, ?_, ?_⟩
  · intro rec hrec
    unfold buildDatasetFromTabular at hrec
    rw [List.mem_map] at hrec
    obtain ⟨pr, hpr, hsnd⟩ := hrec
    obtain ⟨r', row, -, hx⟩ := mem_rowsGo hpr
    have := (hcell _ row pr hx).2
    rw [hsnd] at this
    exact this
  · intro r row pr hpr
    exact hcell _ row pr hpr
  · intro u₁ u₂ b r₁ r₂ hne
    exact buildRowInstanceIri_inj hne

/-- Witness for C10: subjects minted for rows 0 and 1 differ even with
adversarial tokens. -/
theorem records_graph_and_subjects_witness :
    buildRowInstanceIri "TOKEN1" defaultBaseInstanceIri 0 ≠
      buildRowInstanceIri "TOKEN2" defaultBaseInstanceIri 1 :=
  (records_graph_and_subjects trivialHost (fun _ => "TOKEN") defaultBaseInstanceIri
    ⟨none, []⟩ ⟨true, [], {}⟩ [] "urn:g").2.2.2 "TOKEN1" "TOKEN2" defaultBaseInstanceIri 0 1
    (by decide)

/-! ### Claim C3 -/

/-- C3 (amended): in `handleRun`, serialization happens before the store
write.  If the codec fails after quad assembly, `safeAsync` reports the
failure and the `putRun` write never happens — the store is left exactly
as it was (no rollback is needed because nothing was written; prior runs
are untouched).  Only when serialization succeeds is the run persisted. -/
theorem handleRun_serialization_before_store (h : Host) (uuid : Nat → String) (now : UtcNow)
    (nowIso : String) (db : List StoredRun) (filename : String) (options : FileOptions)
    (tabular : TabularData) (ser : List Quad → Except String Serializations) :
    (∀ e, ser (buildDatasetFromTabular (buildLiteralObject h)
        (fun base r => buildRowInstanceIri (uuid r) base r) defaultBaseInstanceIri tabular
        options
        (buildPredicateIrisForColumns
          (buildColumnKeys tabular.header tabular.rows options.treatFirstRowAsHeader)
          options.predicate defaultBasePredicateIri)
        (buildRunGraphIri defaultBaseRunIri filename now)).1 = .error e →
      handleRun h uuid now nowIso db filename options tabular ser = (db, .failure e)) ∧
    (∀ out, ser (buildDatasetFromTabular (buildLiteralObject h)
        (fun base r => buildRowInstanceIri (uuid r) base r) defaultBaseInstanceIri tabular
        options
        (buildPredicateIrisForColumns
          (buildColumnKeys tabular.header tabular.rows options.treatFirstRowAsHeader)
          options.predicate defaultBasePredicateIri)
        (buildRunGraphIri defaultBaseRunIri filename now)).1 = .ok out →
      handleRun h uuid now nowIso db filename options tabular ser =
        (putRun db ⟨buildRunGraphIri defaultBaseRunIri filename now, filename, nowIso,
          (buildDatasetFromTabular (buildLiteralObject h)
            (fun base r => buildRowInstanceIri (uuid r) base r) defaultBaseInstanceIri tabular
            options
            (buildPredicateIrisForColumns
              (buildColumnKeys tabular.header tabular.rows options.treatFirstRowAsHeader)
              options.predicate defaultBasePredicateIri)
            (buildRunGraphIri defaultBaseRunIri filename now)).2⟩, .success out)) := by
  constructor
  · intro e hser
    unfold handleRun
    rw [hser]
  · intro out hser
    unfold handleRun
    rw [hser]

set_option maxHeartbeats 4000000 in
/-- Counterexample to C3 as stated: with an empty store and a failing
codec, quad assembly succeeds (two records are built for `Ada,Lovelace`),
yet `handleRun` ends with the failure toast and an unchanged empty store —
the serialization failure prevents the store write, so persistence is not
independent of serialization. -/
theorem handleRun_failure_prevents_store :
    handleRun trivialHost (fun _ => "TOKEN") ⟨2026, 9, 12, 0, 0, 0, 0⟩
        "2026-10-12T00:00:00.000Z" [] "people.csv" ⟨true, [], {}⟩
        ⟨some ["first", "last"], [["Ada", "Lovelace"]]⟩
        (fun _ => Except.error "codec failure") =
      ([], RunOutcome.failure "codec failure") ∧
    ((buildDatasetFromTabular (buildLiteralObject trivialHost)
        (fun base r => buildRowInstanceIri "TOKEN" base r) defaultBaseInstanceIri
        ⟨some ["first", "last"], [["Ada", "Lovelace"]]⟩ ⟨true, [], {}⟩
        (buildPredicateIrisForColumns
          (buildColumnKeys (some ["first", "last"]) [["Ada", "Lovelace"]] true)
          {} defaultBasePredicateIri)
        (buildRunGraphIri defaultBaseRunIri "people.csv" ⟨2026, 9, 12, 0, 0, 0, 0⟩)).2).length
      = 2 := by
  constructor
  · decide
  · decide

/-- Witness for C3 at a concrete failing codec. -/
theorem handleRun_serialization_before_store_witness :
    handleRun trivialHost (fun _ => "TOKEN") ⟨2026, 9, 12, 0, 0, 0, 0⟩ "iso" [] "people.csv"
        ⟨true, [], {}⟩ ⟨some ["first"], [["Ada"]]⟩ (fun _ => Except.error "boom") =
      ([], RunOutcome.failure "boom") :=
  (handleRun_serialization_before_store trivialHost (fun _ => "TOKEN") ⟨2026, 9, 12, 0, 0, 0, 0⟩
    "iso" [] "people.csv" ⟨true, [], {}⟩ ⟨some ["first"], [["Ada"]]⟩
    (fun _ => Except.error "boom")).1 "boom" rfl
